import Mathlib

/-!
Verification of the RPGMaker-Tauri repository against its design document.

The development shallowly embeds the two Rust source files:
  - src/src-tauri/src/lib.rs (the save-record persistence commands), and
  - src/src-tauri/src/external_localhost_plugin/mod.rs (the localhost
    asset server: path resolution, MIME inference, HTML payload injection
    and response assembly).

Strings and byte buffers are modelled as `List Char`; filesystem and
network effects are modelled by explicit state passing (an association
list for the save directory, an oracle function for the served asset
tree), and fallible Rust functions returning `Result` are modelled with
`Except`.  Rust's `String::from_utf8_lossy` is the identity on the
character-level model, so the model is exact for valid-UTF-8 content.
The injected compatibility payload is, per the design document, an
opaque blob out of the verified core's scope, so the content transformer
takes it as a parameter instead of inlining the literal script.
-/

/-- Character list of a string literal (our model of Rust `String` / `&str`). -/
def chars (s : String) : List Char := s.data

deriving instance DecidableEq for Except

/-! ## Generic string helpers shared by both source files -/

/-- Substring test, modelling Rust `str::contains` with a literal pattern:
true iff `pat` occurs contiguously inside the list. -/
def containsSub (pat : List Char) : List Char → Bool
  | [] => pat.isPrefixOf []
  | c :: cs => pat.isPrefixOf (c :: cs) || containsSub pat cs

/-- Fuelled worker for `replaceAll`.  On a match it emits the replacement
and resumes scanning after the matched occurrence (Rust `str::replace`
replaces the non-overlapping occurrences left to right). -/
def replaceAllGo (pat rep : List Char) : Nat → List Char → List Char
  | _, [] => []
  | 0, rest => rest
  | Nat.succ n, c :: cs =>
      if pat.isPrefixOf (c :: cs) && !pat.isEmpty then
        rep ++ replaceAllGo pat rep n (cs.drop (pat.length - 1))
      else
        c :: replaceAllGo pat rep n cs

/-- Model of Rust `str::replace` (with a nonempty literal pattern): replace
every non-overlapping occurrence of `pat` by `rep`, scanning left to right.
The fuel `s.length` always suffices since every step consumes at least one
character. -/
def replaceAll (pat rep s : List Char) : List Char :=
  replaceAllGo pat rep s.length s

/-! ## Path components (model of Rust `std::path::Path` accessors)

The model treats a path as a verbatim character list: `fileName` is the
part after the last separator and `pathExtension` the part of the file
name after its last dot (none when there is no dot, or when the only dot
is the leading one, matching `Path::extension` for ordinary file names).
The special relative components `.` and `..` are not given their
component semantics; no claim depends on them. -/

/-- Split a file name at its last dot: `some (stem, ext)` with
`name = stem ++ [dot] ++ ext` and no dot in `ext`; `none` when the name
has no dot. -/
def splitExtAux : List Char → Option (List Char × List Char)
  | [] => none
  | c :: cs =>
    match splitExtAux cs with
    | some (st, ex) => some (c :: st, ex)
    | none => if c = '.' then some ([], cs) else none

/-- Part of the path after the last `/` separator (Rust `Path::file_name`
for ordinary names). -/
def fileName (p : List Char) : List Char :=
  (p.reverse.takeWhile (fun c => c != '/')).reverse

/-- Model of Rust `Path::extension`: the portion of the file name after
its last dot, unless there is no dot or the last dot is the leading
character of the file name. -/
def pathExtension (p : List Char) : Option (List Char) :=
  match splitExtAux (fileName p) with
  | none => none
  | some (st, ex) => if st = [] then none else some ex

/-! ## Persistence service (src/src-tauri/src/lib.rs, lines 16-86)

The save directory is modelled as an association list from file name to
file content.  The commands are embedded under the claims' standing
hypothesis that no filesystem I/O error occurs, so `File::open`,
`read_to_string`, `File::create`, `write_all` and `remove_file` succeed;
the only failure that remains observable is the `exists()` test.  A
separate oracle-based embedding `list_saves_io` keeps the error paths of
`list_saves`, which C6 is about. -/

/-- Save-directory contents: file name together with its text content. -/
abbrev SaveDir := List (List Char × List Char)

/-- First binding of a file name in the directory model. -/
def fsLookup (filename : List Char) : SaveDir → Option (List Char)
  | [] => none
  | e :: es => if e.1 = filename then some e.2 else fsLookup filename es

/-- Command `read_save` (lib.rs lines 46-58): the key is joined to the
save directory verbatim; a missing file yields the fixed error string,
otherwise the full content is returned. -/
def read_save (filename : List Char) (fs : SaveDir) : Except (List Char) (List Char) :=
  match fsLookup filename fs with
  | none => Except.error (chars "Save file not found")
  | some contents => Except.ok contents

/-- Command `write_save` (lib.rs lines 62-74): the key is joined verbatim
and `File::create` creates or truncates that file, so the binding for the
exact key is replaced. -/
def write_save (filename data : List Char) (fs : SaveDir) : SaveDir :=
  (filename, data) :: fs.filter (fun e => !(e.1 == filename))

/-- Command `delete_save` (lib.rs lines 78-86): the file is removed only
when it exists; a missing file is skipped and the command still returns
success. -/
def delete_save (filename : List Char) (fs : SaveDir) : Except (List Char) SaveDir :=
  Except.ok
    (if (fsLookup filename fs).isSome then
      fs.filter (fun e => !(e.1 == filename))
    else fs)

/-- Command `list_saves` (lib.rs lines 17-42), error-free environment:
the file names of the directory entries whose extension is `rpgsave`. -/
def list_saves (fs : SaveDir) : List (List Char) :=
  (fs.map Prod.fst).filter (fun name => pathExtension name == some (chars "rpgsave"))

/-- Command `list_saves` with its error paths (lib.rs lines 17-42).
`dirMissing` is the `!save_path.exists()` test; `createDirErr` the result
of `create_dir_all` (an error message when it fails); `readDirRes` models
`fs::read_dir`: `none` when it fails (the source's `if let Ok(entries)`
silently skips that case), otherwise the entry list, each entry `none`
when its `io::Result` is an error (silently skipped by `if let Ok(entry)`). -/
def list_saves_io (dirMissing : Bool) (createDirErr : Option (List Char))
    (readDirRes : Option (List (Option (List Char)))) :
    Except (List Char) (List (List Char)) :=
  if dirMissing then
    match createDirErr with
    | some e => Except.error (chars "Failed to create save directory: " ++ e)
    | none =>
      match readDirRes with
      | none => Except.ok []
      | some entries =>
        Except.ok ((entries.filterMap id).filter
          (fun name => pathExtension name == some (chars "rpgsave")))
  else
    match readDirRes with
    | none => Except.ok []
    | some entries =>
      Except.ok ((entries.filterMap id).filter
        (fun name => pathExtension name == some (chars "rpgsave")))

/-! ## MIME table (mod.rs, `get_mime_type`, lines 717-753) -/

/-- ASCII lowercasing, the relevant fragment of Rust `str::to_lowercase`
for extension strings. -/
def asciiLower (s : List Char) : List Char := s.map Char.toLower

/-- The extension-to-content-type arms of the `match` in `get_mime_type`
(lines 724-751), as a lookup table; the wildcard arm is the default of
`mimeFromExt`. -/
def mimeTable : List (List Char × List Char) := [
  (chars "html", chars "text/html"), (chars "htm", chars "text/html"),
  (chars "css", chars "text/css"),
  (chars "js", chars "application/javascript"),
  (chars "json", chars "application/json"),
  (chars "png", chars "image/png"),
  (chars "jpg", chars "image/jpeg"), (chars "jpeg", chars "image/jpeg"),
  (chars "gif", chars "image/gif"),
  (chars "svg", chars "image/svg+xml"),
  (chars "ico", chars "image/x-icon"),
  (chars "woff", chars "font/woff"),
  (chars "woff2", chars "font/woff2"),
  (chars "ttf", chars "font/ttf"),
  (chars "otf", chars "font/otf"),
  (chars "mp3", chars "audio/mpeg"),
  (chars "wav", chars "audio/wav"),
  (chars "ogg", chars "audio/ogg"),
  (chars "m4a", chars "audio/mp4"),
  (chars "aac", chars "audio/aac"),
  (chars "rpgmvo", chars "audio/ogg"),
  (chars "rpgmvm", chars "audio/mp4"),
  (chars "rpgmvp", chars "image/png"),
  (chars "rpgmvw", chars "audio/wav"),
  (chars "mp4", chars "video/mp4"),
  (chars "webm", chars "video/webm"),
  (chars "txt", chars "text/plain"),
  (chars "xml", chars "application/xml")]

/-- The `match extension` expression of `get_mime_type`: first matching
arm, or the generic binary type for the wildcard. -/
def mimeFromExt (e : List Char) : List Char :=
  match mimeTable.find? (fun kv => kv.1 == e) with
  | some kv => kv.2
  | none => chars "application/octet-stream"

/-- Function `get_mime_type` (mod.rs lines 717-753): the extension of the
path, empty when absent, lowercased, then looked up in the table. -/
def get_mime_type (file_path : List Char) : List Char :=
  mimeFromExt (asciiLower ((pathExtension file_path).getD []))

/-! ## Response model (mod.rs, `Request`, `Response`, `Builder::build`) -/

/-- The plugin's request view (mod.rs lines 22-30): the raw request URL. -/
structure Request where
  url : List Char
deriving DecidableEq

/-- Response headers under construction (mod.rs lines 32-40): a mapping
with unique keys, last write wins, modelled as an association list. -/
abbrev Headers := List (List Char × List Char)

/-- Method `Response::add_header` (mod.rs lines 37-39): `HashMap::insert`,
replacing any existing binding of the key. -/
def add_header (h : Headers) (k v : List Char) : Headers :=
  (k, v) :: h.filter (fun e => !(e.1 == k))

/-- Value bound to a key in the header mapping. -/
def lookupHeader (k : List Char) (h : Headers) : Option (List Char) :=
  (h.find? (fun e => e.1 == k)).map Prod.snd

/-- The default header set assembled before the hook runs (mod.rs lines
157-167): content type, the three permissive cross-origin headers, and
the long-lived public caching directive exactly when the content type
starts with the audio or image category prefix. -/
def defaultHeaders (mime : List Char) : Headers :=
  let r := add_header [] (chars "Content-Type") mime
  let r := add_header r (chars "Access-Control-Allow-Origin") (chars "*")
  let r := add_header r (chars "Access-Control-Allow-Methods") (chars "GET, POST, OPTIONS")
  let r := add_header r (chars "Access-Control-Allow-Headers") (chars "Content-Type")
  if (chars "audio/").isPrefixOf mime || (chars "image/").isPrefixOf mime then
    add_header r (chars "Cache-Control") (chars "public, max-age=31536000")
  else r

/-! ## Path resolution (mod.rs, `Builder::build`, lines 101-130) -/

/-- Value of a hexadecimal digit character, used by percent decoding. -/
def hexVal (c : Char) : Option Nat :=
  if '0' ≤ c ∧ c ≤ '9' then some (c.toNat - '0'.toNat)
  else if 'a' ≤ c ∧ c ≤ 'f' then some (c.toNat - 'a'.toNat + 10)
  else if 'A' ≤ c ∧ c ≤ 'F' then some (c.toNat - 'A'.toNat + 10)
  else none

/-- Percent decoding (the `percent_decode_str(..).decode_utf8_lossy()` of
mod.rs line 111): a percent sign followed by two hex digits becomes the
denoted code unit, an invalid escape is passed through verbatim.  On the
character-level model this is exact for ASCII escapes; multi-byte UTF-8
escape sequences (and hence the lossy replacement of invalid sequences)
are outside the model, and no claim is settled on them. -/
def percentDecodeChars : List Char → List Char
  | [] => []
  | '%' :: h1 :: h2 :: rest =>
    match hexVal h1, hexVal h2 with
    | some a, some b => Char.ofNat (16 * a + b) :: percentDecodeChars rest
    | _, _ => '%' :: percentDecodeChars (h1 :: h2 :: rest)
  | c :: rest => c :: percentDecodeChars rest

/-- Modelled from the spec: the path component extraction performed by the
external `http::Uri` collaborator (mod.rs lines 103-105) — the path is the
request target up to the first query or fragment delimiter, the rest is
discarded. -/
def uriPath (target : List Char) : List Char :=
  target.takeWhile (fun c => c != '?' && c != '#')

/-- Modelled from the spec: parsing the raw request target with the
external `http::Uri` collaborator (mod.rs lines 103-106).  A target that
is empty or carries a character forbidden in request targets (modelled by
the space character) fails to parse; otherwise its path component is
extracted. -/
def parseUri (target : List Char) : Option (List Char) :=
  if target.isEmpty || target.any (fun c => c == ' ') then none
  else some (uriPath target)

/-- The path-resolution block of the listener loop (mod.rs lines 109-130):
percent-decode, substitute the default document for the root path, strip
exactly one leading separator, substitute the default document for the
empty remainder. -/
def resolve_request_path (rawPath : List Char) : List Char :=
  let path := percentDecodeChars rawPath
  let path := if path = chars "/" then chars "/index.html" else path
  let file_path := if (chars "/").isPrefixOf path then path.drop 1 else path
  if file_path.isEmpty then chars "index.html" else file_path

/-! ## Asset loading and content transformation (mod.rs lines 147-152,
206-700, 703-714) -/

/-- Outcome of probing one path of the served tree, the oracle consumed by
`load_external_file`: the file may be missing, be a directory, fail to
open, fail to read, or hold content. -/
inductive FsNode where
  | missing
  | directory
  | unopenable
  | unreadable
  | file (content : List Char)
deriving DecidableEq

/-- Function `load_external_file` (mod.rs lines 703-714): returns `none`
when the path does not exist, is not a regular file, or cannot be opened
or read — one uniform absence signal — and otherwise the content paired
with the MIME table's result for the path. -/
def load_external_file (node : FsNode) (file_path : List Char) :
    Option (List Char × List Char) :=
  match node with
  | FsNode.missing => none
  | FsNode.directory => none
  | FsNode.unopenable => none
  | FsNode.unreadable => none
  | FsNode.file content => some (content, get_mime_type file_path)

/-- Function `inject_polyfills` (mod.rs lines 207-700): insert the payload
before the closing head marker when one occurs (every occurrence, since
`str::replace` replaces all of them), else after the opening body marker
when one occurs, else prepend it.  The payload literal is the opaque blob
out of the core's scope and is taken as the parameter `polyfill_script`. -/
def inject_polyfills (polyfill_script : List Char) (content : List Char) : List Char :=
  if containsSub (chars "</head>") content then
    replaceAll (chars "</head>") (polyfill_script ++ chars "\n</head>") content
  else if containsSub (chars "<body>") content then
    replaceAll (chars "<body>") (chars "<body>\n" ++ polyfill_script) content
  else
    polyfill_script ++ chars "\n" ++ content

/-- The transformation gate of the listener loop (mod.rs lines 148-152):
the payload is injected only when the inferred content type is the HTML
type and the resolved path ends in the literal suffix `.html`. -/
def transformContent (polyfill_script final_path mime content : List Char) : List Char :=
  if (mime == chars "text/html") && (chars ".html").isSuffixOf final_path then
    inject_polyfills polyfill_script content
  else content

/-! ## The per-request pipeline (mod.rs, `Builder::build`, lines 101-198) -/

/-- One emitted HTTP response: status code, body, and headers. -/
structure HttpOutcome where
  status : Nat
  body : List Char
  headers : Headers
deriving DecidableEq

/-- The body of the listener loop for one request (mod.rs lines 101-197):
parse the target (500 with a plain-text error on failure), resolve the
path, load the asset (404 with a plain-text body on absence), transform
HTML content, assemble the default headers, let the optional hook mutate
them, and emit 200 with the asset body.  `tree` is the oracle for the
configured external folder. -/
def handleRequest (polyfill_script : List Char)
    (on_request : Option (Request → Headers → Headers))
    (target : List Char) (tree : List Char → FsNode) : HttpOutcome :=
  match parseUri target with
  | none =>
    { status := 500, body := chars "Internal Server Error - URI Parse Error",
      headers := [(chars "Content-Type", chars "text/plain")] }
  | some path =>
    let final_path := resolve_request_path path
    match load_external_file (tree final_path) final_path with
    | none =>
      { status := 404, body := chars "Not Found",
        headers := [(chars "Content-Type", chars "text/plain")] }
    | some (content, mime_type) =>
      let content2 := transformContent polyfill_script final_path mime_type content
      let response := defaultHeaders mime_type
      let response2 :=
        match on_request with
        | some f => f { url := target } response
        | none => response
      { status := 200, body := content2, headers := response2 }

/-! ## Lemmas about the save model -/

theorem fsLookup_filter_out (k : List Char) :
    ∀ fs : SaveDir, fsLookup k (fs.filter (fun e => !(e.1 == k))) = none := by
  intro fs
  induction fs with
  | nil => rfl
  | cons e es ih =>
    by_cases h : e.1 = k
    · simp [List.filter, h, ih]
    · have hb : (e.1 == k) = false := by simp [h]
      simp [List.filter, hb, fsLookup, h, ih]

theorem read_save_write_save (k d : List Char) (fs : SaveDir) :
    read_save k (write_save k d fs) = Except.ok d := by
  simp [read_save, write_save, fsLookup]

/-- C3: save-command algebra in the absence of filesystem I/O errors.
Write(k, A) then Read(k) returns A; Write(k, A); Write(k, B); Read(k)
returns B; Delete(k) then Read(k) fails with the not-found message; and
Delete on a never-written key succeeds without error (and leaves the
directory unchanged). -/
theorem save_roundtrip_algebra (fs : SaveDir) (k a b : List Char) :
    read_save k (write_save k a fs) = Except.ok a ∧
    read_save k (write_save k b (write_save k a fs)) = Except.ok b ∧
    (∀ fs2, delete_save k fs = Except.ok fs2 →
      read_save k fs2 = Except.error (chars "Save file not found")) ∧
    (fsLookup k fs = none → delete_save k fs = Except.ok fs) := by
  refine ⟨read_save_write_save k a fs, read_save_write_save k b _, ?_, ?_⟩
  · intro fs2 h
    have h2 :
        (if (fsLookup k fs).isSome then fs.filter (fun e => !(e.1 == k)) else fs) = fs2 := by
      simpa [delete_save] using h
    by_cases hs : (fsLookup k fs).isSome
    · rw [if_pos hs] at h2
      rw [← h2]
      simp [read_save, fsLookup_filter_out]
    · rw [if_neg hs] at h2
      rw [← h2]
      have hn : fsLookup k fs = none := by
        cases hgoal : fsLookup k fs with
        | none => rfl
        | some v => rw [hgoal] at hs; simp at hs
      simp [read_save, hn]
  · intro h
    simp [delete_save, h]

/-- Witness for C3 at the key k on the empty save directory. -/
theorem save_roundtrip_algebra_witness :
    read_save (chars "k") (write_save (chars "k") (chars "A") []) = Except.ok (chars "A") ∧
    read_save (chars "k") [] = Except.error (chars "Save file not found") ∧
    delete_save (chars "k") [] = Except.ok [] := by
  obtain ⟨h1, _, h3, h4⟩ := save_roundtrip_algebra [] (chars "k") (chars "A") (chars "B")
  exact ⟨h1, h3 [] (h4 (by decide)), h4 (by decide)⟩

/-- C1 counterexample: the persistence commands do not append the save
suffix.  After write_save of keys file1 and file2, list_saves is empty
(neither stored name carries the rpgsave extension), reading the
normalized name file1.rpgsave fails with not-found, while reading the
verbatim key file1 succeeds — so the claimed suffix-appending
normalization does not happen in read/write/delete. -/
theorem save_key_normalization_cex :
    list_saves (write_save (chars "file2") (chars "B")
      (write_save (chars "file1") (chars "A") [])) = [] ∧
    read_save (chars "file1.rpgsave") (write_save (chars "file2") (chars "B")
      (write_save (chars "file1") (chars "A") [])) =
      Except.error (chars "Save file not found") ∧
    read_save (chars "file1") (write_save (chars "file2") (chars "B")
      (write_save (chars "file1") (chars "A") [])) = Except.ok (chars "A") := by
  decide

/-- C1 amended: the read, write and delete commands all use the key
verbatim as the on-disk filename — the identity mapping, which is total
and deterministic, so the three operations agree on the filename; and
after write_save of two keys that already carry the save suffix,
list_saves contains both filenames. -/
theorem save_key_identity_filename (fs : SaveDir) (k d : List Char) :
    read_save k (write_save k d fs) = Except.ok d ∧
    (∀ fs2, delete_save k fs = Except.ok fs2 → fsLookup k fs2 = none) ∧
    chars "file1.rpgsave" ∈ list_saves (write_save (chars "file2.rpgsave") (chars "B")
      (write_save (chars "file1.rpgsave") (chars "A") [])) ∧
    chars "file2.rpgsave" ∈ list_saves (write_save (chars "file2.rpgsave") (chars "B")
      (write_save (chars "file1.rpgsave") (chars "A") [])) := by
  refine ⟨read_save_write_save k d fs, ?_, by decide, by decide⟩
  intro fs2 h
  have h2 :
      (if (fsLookup k fs).isSome then fs.filter (fun e => !(e.1 == k)) else fs) = fs2 := by
    simpa [delete_save] using h
  by_cases hs : (fsLookup k fs).isSome
  · rw [if_pos hs] at h2
    rw [← h2]
    exact fsLookup_filter_out k fs
  · rw [if_neg hs] at h2
    rw [← h2]
    cases hgoal : fsLookup k fs with
    | none => rfl
    | some v => rw [hgoal] at hs; simp at hs

/-- Witness for C1 (amended) at the key k on the empty save directory. -/
theorem save_key_identity_filename_witness :
    read_save (chars "k") (write_save (chars "k") (chars "A") []) = Except.ok (chars "A") ∧
    fsLookup (chars "k") [] = none := by
  obtain ⟨h1, h2, _, _⟩ := save_key_identity_filename [] (chars "k") (chars "A")
  exact ⟨h1, h2 [] (by decide)⟩

/-- C6 counterexample: when the save directory exists but enumerating it
fails, list_saves swallows the failure and returns the empty list with a
success result, instead of reporting the I/O failure as an error string. -/
theorem list_saves_swallows_error_cex :
    list_saves_io false none none = Except.ok [] ∧
    (list_saves_io false none none).isOk = true := by
  decide

/-- C6 amended: list_saves returns the filenames (not full paths) of
exactly those successfully read directory entries whose extension is the
save suffix; a failure to create a missing save directory is reported as
an error message string; but a failure of the directory enumeration (or
of an individual entry) is silently swallowed, yielding only the
successfully enumerated entries — the empty list when read_dir fails. -/
theorem list_saves_amended (e : List Char) (entries : List (Option (List Char)))
    (rd : Option (List (Option (List Char)))) (n : List Char) :
    list_saves_io true (some e) rd =
      Except.error (chars "Failed to create save directory: " ++ e) ∧
    list_saves_io false none none = Except.ok [] ∧
    (∀ l, list_saves_io false none (some entries) = Except.ok l →
      (n ∈ l ↔ some n ∈ entries ∧ pathExtension n = some (chars "rpgsave"))) := by
  refine ⟨by simp [list_saves_io], by simp [list_saves_io], ?_⟩
  intro l h
  have hl : (entries.filterMap id).filter
      (fun name => pathExtension name == some (chars "rpgsave")) = l := by
    simpa [list_saves_io] using h
  rw [← hl]
  simp [List.mem_filter, List.mem_filterMap]

/-- Witness for C6 (amended) on a three-entry enumeration with one failed
entry, one matching save file and one non-save file. -/
theorem list_saves_amended_witness :
    some (chars "a.rpgsave") ∈ [some (chars "a.rpgsave"), none, some (chars "b.txt")] ∧
    pathExtension (chars "a.rpgsave") = some (chars "rpgsave") :=
  ((list_saves_amended (chars "E") [some (chars "a.rpgsave"), none, some (chars "b.txt")]
    none (chars "a.rpgsave")).2.2 [chars "a.rpgsave"] (by decide)).mp (by decide)

/-! ## Prefix, substring and replacement lemmas -/

theorem isPrefixOf_eq_true (p : List Char) :
    ∀ s, p.isPrefixOf s = true ↔ ∃ t, s = p ++ t := by
  induction p with
  | nil =>
    intro s
    simp [List.isPrefixOf]
  | cons a p ih =>
    intro s
    cases s with
    | nil => simp [List.isPrefixOf]
    | cons b s =>
      simp only [List.isPrefixOf, Bool.and_eq_true, beq_iff_eq, ih]
      constructor
      · rintro ⟨rfl, t, rfl⟩
        exact ⟨t, rfl⟩
      · rintro ⟨t, ht⟩
        cases ht
        exact ⟨rfl, t, rfl⟩

theorem containsSub_of_isPrefixOf (pat : List Char) (s : List Char)
    (h : pat.isPrefixOf s = true) : containsSub pat s = true := by
  cases s with
  | nil => simpa [containsSub] using h
  | cons c cs => simp [containsSub, h]

theorem containsSub_cons (pat : List Char) (c : Char) (cs : List Char)
    (h : containsSub pat cs = true) : containsSub pat (c :: cs) = true := by
  simp [containsSub, h]

theorem containsSub_nil_pat (s : List Char) : containsSub [] s = true := by
  cases s with
  | nil => rfl
  | cons c cs => simp [containsSub, List.isPrefixOf]

theorem containsSub_append_self (pat a b : List Char) :
    containsSub pat (a ++ pat ++ b) = true := by
  induction a with
  | nil =>
    exact containsSub_of_isPrefixOf pat (pat ++ b)
      ((isPrefixOf_eq_true pat (pat ++ b)).mpr ⟨b, rfl⟩)
  | cons c a ih =>
    exact containsSub_cons pat c (a ++ pat ++ b) ih

theorem go_no_match (pat rep : List Char) :
    ∀ fuel s, s.length ≤ fuel → containsSub pat s = false →
      replaceAllGo pat rep fuel s = s := by
  intro fuel
  induction fuel with
  | zero =>
    intro s hs _
    have : s = [] := List.length_eq_zero.mp (Nat.le_zero.mp hs)
    subst this
    rfl
  | succ n ih =>
    intro s hs hc
    cases s with
    | nil => rfl
    | cons c cs =>
      have hc2 : pat.isPrefixOf (c :: cs) = false ∧ containsSub pat cs = false := by
        simpa [containsSub] using hc
      have hlen : cs.length ≤ n := by simpa using hs
      simp [replaceAllGo, hc2.1, ih cs hlen hc2.2]

theorem go_single (pat rep : List Char) :
    ∀ a fuel b, (a ++ pat ++ b).length ≤ fuel →
      containsSub pat (a ++ pat.dropLast) = false →
      containsSub pat b = false →
      replaceAllGo pat rep fuel (a ++ pat ++ b) = a ++ rep ++ b := by
  intro a
  induction a with
  | nil =>
    intro fuel b hf ha hb
    have hpne : pat ≠ [] := by
      intro he
      subst he
      rw [containsSub_nil_pat] at ha
      exact Bool.true_eq_false.mp ha
    obtain ⟨p0, pt, rfl⟩ : ∃ p0 pt, pat = p0 :: pt := by
      cases pat with
      | nil => exact absurd rfl hpne
      | cons p0 pt => exact ⟨p0, pt, rfl⟩
    cases fuel with
    | zero =>
      exfalso
      simp at hf
    | succ n =>
      have hcond : ((p0 :: pt).isPrefixOf (p0 :: (pt ++ b)) && !(p0 :: pt).isEmpty) = true := by
        have hpre : (p0 :: pt).isPrefixOf (p0 :: (pt ++ b)) = true :=
          (isPrefixOf_eq_true _ _).mpr ⟨b, by simp⟩
        simp [List.isEmpty, hpre]
      have hlb : b.length ≤ n := by
        simp [List.length_append] at hf
        omega
      calc replaceAllGo (p0 :: pt) rep (n + 1) ([] ++ (p0 :: pt) ++ b)
          = rep ++ replaceAllGo (p0 :: pt) rep n ((pt ++ b).drop ((p0 :: pt).length - 1)) := by
            simp only [List.nil_append, List.cons_append, replaceAllGo, List.append_eq]
            rw [if_pos hcond]
        _ = rep ++ replaceAllGo (p0 :: pt) rep n b := by
            have : (pt ++ b).drop ((p0 :: pt).length - 1) = b := by
              simp [List.drop_left]
            rw [this]
        _ = [] ++ rep ++ b := by
            rw [go_no_match (p0 :: pt) rep n b hlb hb]
            simp
  | cons c a ih =>
    intro fuel b hf ha hb
    cases fuel with
    | zero =>
      exfalso
      simp at hf
    | succ n =>
      have ha2 : pat.isPrefixOf (c :: (a ++ pat ++ b)) = false ∧
          containsSub pat (a ++ pat.dropLast) = false := by
        constructor
        · by_contra hcon
          have hpre : pat.isPrefixOf ((c :: a) ++ pat ++ b) = true := by
            cases hx : pat.isPrefixOf (c :: (a ++ pat ++ b)) with
            | true => simpa using hx
            | false => exact absurd hx hcon
          have hpne : pat ≠ [] := by
            intro he
            subst he
            rw [containsSub_nil_pat] at ha
            exact Bool.true_eq_false.mp ha
          have hplen : 1 ≤ pat.length := by
            cases pat with
            | nil => exact absurd rfl hpne
            | cons x xs => simp
          -- pat is a prefix of the first (c::a).length + pat.length - 1 characters
          obtain ⟨t, ht⟩ := (isPrefixOf_eq_true pat _).mp hpre
          -- (c::a) ++ pat.dropLast = take M s with M = (c::a).length + (pat.length - 1)
          have hM : ((c :: a) ++ pat ++ b).take ((c :: a).length + (pat.length - 1)) =
              (c :: a) ++ pat.dropLast := by
            rw [List.append_assoc]
            rw [List.take_append_eq_append_take]
            have h1 : ((c :: a) : List Char).take ((c :: a).length + (pat.length - 1)) = c :: a :=
              List.take_of_length_le (by omega)
            rw [h1]
            have h2 : (c :: a).length + (pat.length - 1) - (c :: a).length = pat.length - 1 := by
              omega
            rw [h2]
            rw [List.take_append_eq_append_take]
            have h3 : pat.take (pat.length - 1) = pat.dropLast := (List.dropLast_eq_take pat).symm
            have h4 : pat.length - 1 - pat.length = 0 := by omega
            rw [h3, h4]
            simp
          have hpre2 : pat.isPrefixOf ((c :: a) ++ pat.dropLast) = true := by
            rw [← hM]
            rw [ht]
            rw [List.take_append_eq_append_take]
            rw [List.take_of_length_le
              (show pat.length ≤ (c :: a).length + (pat.length - 1) by
                simp only [List.length_cons]
                omega)]
            exact (isPrefixOf_eq_true pat _).mpr ⟨_, rfl⟩
          have : containsSub pat ((c :: a) ++ pat.dropLast) = true :=
            containsSub_of_isPrefixOf _ _ hpre2
          rw [this] at ha
          exact Bool.true_eq_false.mp ha
        · have := ha
          simp only [List.cons_append, containsSub, Bool.or_eq_false_iff] at this
          exact this.2
      have hlen : (a ++ pat ++ b).length ≤ n := by
        simp [List.length_append] at hf ⊢
        omega
      have hstep : replaceAllGo pat rep (n + 1) ((c :: a) ++ pat ++ b) =
          c :: replaceAllGo pat rep n (a ++ pat ++ b) := by
        simp only [List.cons_append, replaceAllGo, List.append_eq]
        rw [if_neg]
        have ha1 : pat.isPrefixOf (c :: (a ++ (pat ++ b))) = false := by
          simpa [List.append_assoc] using ha2.1
        simp [ha1]
      rw [hstep, ih n b hlen ha2.2 hb]
      rfl

theorem replaceAll_no_match (pat rep s : List Char) (h : containsSub pat s = false) :
    replaceAll pat rep s = s :=
  go_no_match pat rep s.length s (le_refl _) h

theorem replaceAll_single (pat rep a b : List Char)
    (ha : containsSub pat (a ++ pat.dropLast) = false)
    (hb : containsSub pat b = false) :
    replaceAll pat rep (a ++ pat ++ b) = a ++ rep ++ b :=
  go_single pat rep a (a ++ pat ++ b).length b (le_refl _) ha hb

/-- C2 counterexample: on a document containing the closing head marker
twice, the transformer inserts the payload twice (Rust `str::replace`
replaces every occurrence), so the insertion is not unique and the output
length differs from a single insertion of the payload plus its adjoining
newline. -/
theorem inject_single_insertion_cex :
    inject_polyfills (chars "P") (chars "</head></head>") =
      chars "P\n</head>P\n</head>" ∧
    (inject_polyfills (chars "P") (chars "</head></head>")).length ≠
      (chars "</head></head>").length + ((chars "P").length + 1) := by
  decide

/-- C2 amended: the transformer inserts the payload once per occurrence of
the relevant marker — hence exactly once whenever the closing head marker
occurs exactly once, or is absent while the opening body marker occurs
exactly once, or both markers are absent (prepend) — and in those cases
every original character outside the single insertion is preserved; the
assembly pipeline leaves every asset that is not (HTML type and path
ending in .html) byte-for-byte unchanged. -/
theorem inject_insertion_amended (polyfill a b s fpath mime content : List Char) :
    (containsSub (chars "</head>") (a ++ (chars "</head>").dropLast) = false →
      containsSub (chars "</head>") b = false →
      inject_polyfills polyfill (a ++ chars "</head>" ++ b) =
        a ++ (polyfill ++ chars "\n") ++ (chars "</head>" ++ b)) ∧
    (containsSub (chars "</head>") (a ++ chars "<body>" ++ b) = false →
      containsSub (chars "<body>") (a ++ (chars "<body>").dropLast) = false →
      containsSub (chars "<body>") b = false →
      inject_polyfills polyfill (a ++ chars "<body>" ++ b) =
        (a ++ chars "<body>") ++ (chars "\n" ++ polyfill) ++ b) ∧
    (containsSub (chars "</head>") s = false →
      containsSub (chars "<body>") s = false →
      inject_polyfills polyfill s = polyfill ++ chars "\n" ++ s) ∧
    (((mime == chars "text/html") && (chars ".html").isSuffixOf fpath) = false →
      transformContent polyfill fpath mime content = content) := by
  refine ⟨?_, ?_, ?_, ?_⟩
  · intro ha hb
    have hc : containsSub (chars "</head>") (a ++ chars "</head>" ++ b) = true :=
      containsSub_append_self _ a b
    simp only [inject_polyfills, hc, if_true]
    rw [replaceAll_single _ _ a b ha hb]
    have hnl : chars "\n</head>" = chars "\n" ++ chars "</head>" := by decide
    rw [hnl]
    simp [List.append_assoc]
  · intro hnohead hba hbb
    have hc : containsSub (chars "<body>") (a ++ chars "<body>" ++ b) = true :=
      containsSub_append_self _ a b
    simp only [inject_polyfills, hnohead, Bool.false_eq_true, if_false, hc, if_true]
    rw [replaceAll_single _ _ a b hba hbb]
    have hnl : chars "<body>\n" = chars "<body>" ++ chars "\n" := by decide
    rw [hnl]
    simp [List.append_assoc]
  · intro h1 h2
    simp only [inject_polyfills, h1, h2, Bool.false_eq_true, if_false]
  · intro h
    simp [transformContent, h]

/-- Witness for C2 (amended) on three small documents, one per insertion
case, and one non-HTML asset. -/
theorem inject_insertion_amended_witness :
    inject_polyfills (chars "P") (chars "<x>" ++ chars "</head>" ++ chars "<y>") =
      chars "<x>" ++ (chars "P" ++ chars "\n") ++ (chars "</head>" ++ chars "<y>") ∧
    inject_polyfills (chars "P") (chars "<x>" ++ chars "<body>" ++ chars "<y>") =
      (chars "<x>" ++ chars "<body>") ++ (chars "\n" ++ chars "P") ++ chars "<y>" ∧
    inject_polyfills (chars "P") (chars "<z>") = chars "P" ++ chars "\n" ++ chars "<z>" ∧
    transformContent (chars "P") (chars "a.png") (chars "image/png") (chars "D") =
      chars "D" := by
  obtain ⟨h1, h2, h3, h4⟩ := inject_insertion_amended (chars "P") (chars "<x>") (chars "<y>")
    (chars "<z>") (chars "a.png") (chars "image/png") (chars "D")
  exact ⟨h1 (by decide) (by decide), h2 (by decide) (by decide) (by decide),
    h3 (by decide) (by decide), h4 (by decide)⟩

/-- C5: path resolution.  The parser keeps only the path component of the
target (query and fragment discarded); the root path and the empty path
both resolve to the default document; a request with multiple leading
separators keeps all but exactly one of them (applied to the
percent-decoded remainder); and an ASCII percent escape is decoded. -/
theorem resolve_path_spec (p : List Char) :
    resolve_request_path (chars "/") = chars "index.html" ∧
    resolve_request_path [] = chars "index.html" ∧
    resolve_request_path ('/' :: '/' :: p) = '/' :: percentDecodeChars p ∧
    resolve_request_path (chars "//") = chars "/" ∧
    resolve_request_path (chars "/a%20b.png") = chars "a b.png" ∧
    parseUri (chars "/a?q=1") = some (chars "/a") ∧
    parseUri (chars "/index.html#frag") = some (chars "/index.html") ∧
    parseUri (chars "/a b") = none := by
  refine ⟨by decide, by decide, ?_, by decide, by decide, by decide, by decide, by decide⟩
  show resolve_request_path ('/' :: ('/' :: p)) = '/' :: percentDecodeChars p
  have hdec : percentDecodeChars ('/' :: ('/' :: p)) = '/' :: ('/' :: percentDecodeChars p) :=
    rfl
  have hne : ('/' :: ('/' :: percentDecodeChars p)) = chars "/" → False := by
    intro h
    have := congrArg List.length h
    simp [chars] at this
  simp only [resolve_request_path, hdec]
  rw [if_neg hne]
  have hpre : (chars "/").isPrefixOf ('/' :: ('/' :: percentDecodeChars p)) = true := rfl
  simp only [hpre, if_true, List.drop_succ_cons, List.drop_zero, List.isEmpty_cons,
    Bool.false_eq_true, if_false]

/-- Witness for C5 at a concrete remainder path. -/
theorem resolve_path_spec_witness :
    resolve_request_path ('/' :: '/' :: chars "a") = '/' :: percentDecodeChars (chars "a") :=
  (resolve_path_spec (chars "a")).2.2.1

/-- C8: MIME lookup is a pure function of the extension alone,
case-insensitively — two paths whose lowercased extensions agree get the
same content type; a path without extension gets the generic binary type,
as does any extension outside the table; and the four legacy encrypted
extensions map to their decrypted counterparts' types. -/
theorem mime_lookup_spec (p q e : List Char) :
    (asciiLower ((pathExtension p).getD []) = asciiLower ((pathExtension q).getD []) →
      get_mime_type p = get_mime_type q) ∧
    (pathExtension p = none → get_mime_type p = chars "application/octet-stream") ∧
    ((∀ kv ∈ mimeTable, kv.1 ≠ e) → mimeFromExt e = chars "application/octet-stream") ∧
    get_mime_type (chars "a.rpgmvo") = chars "audio/ogg" ∧
    get_mime_type (chars "a.rpgmvm") = chars "audio/mp4" ∧
    get_mime_type (chars "a.rpgmvp") = chars "image/png" ∧
    get_mime_type (chars "a.rpgmvw") = chars "audio/wav" ∧
    get_mime_type (chars "A.RPGMVO") = get_mime_type (chars "a.rpgmvo") := by
  refine ⟨?_, ?_, ?_, by decide, by decide, by decide, by decide, by decide⟩
  · intro h
    simp only [get_mime_type, h]
  · intro h
    simp only [get_mime_type, h]
    decide
  · intro h
    have hfind : mimeTable.find? (fun kv => kv.1 == e) = none := by
      rw [List.find?_eq_none]
      intro x hx
      intro hx2
      exact h x hx (by simpa using hx2)
    simp [mimeFromExt, hfind]

/-- Witness for C8 at a path without extension and an unknown extension. -/
theorem mime_lookup_spec_witness :
    get_mime_type (chars "noext") = chars "application/octet-stream" ∧
    mimeFromExt (chars "xyz") = chars "application/octet-stream" ∧
    get_mime_type (chars "x.PNG") = get_mime_type (chars "y.png") := by
  obtain ⟨_, h2, h3, _⟩ := mime_lookup_spec (chars "noext") (chars "x.png") (chars "xyz")
  obtain ⟨h1, _⟩ := mime_lookup_spec (chars "x.PNG") (chars "y.png") (chars "xyz")
  exact ⟨h2 (by decide), h3 (by decide), h1 (by decide)⟩

/-- C9: in the default header set assembled before the hook runs, the
long-lived public caching directive is present exactly when the content
type starts with the audio or image category prefix; for every other
content type no caching header is set. -/
theorem cache_header_iff_media (mime : List Char) :
    (((chars "audio/").isPrefixOf mime || (chars "image/").isPrefixOf mime) = true →
      lookupHeader (chars "Cache-Control") (defaultHeaders mime) =
        some (chars "public, max-age=31536000")) ∧
    (((chars "audio/").isPrefixOf mime || (chars "image/").isPrefixOf mime) = false →
      lookupHeader (chars "Cache-Control") (defaultHeaders mime) = none) := by
  constructor
  · intro h
    simp only [defaultHeaders, h, if_true]
    rfl
  · intro h
    simp only [defaultHeaders, h, Bool.false_eq_true, if_false]
    rfl

/-- Witness for C9 at an audio content type and at the HTML content type. -/
theorem cache_header_iff_media_witness :
    lookupHeader (chars "Cache-Control") (defaultHeaders (chars "audio/ogg")) =
      some (chars "public, max-age=31536000") ∧
    lookupHeader (chars "Cache-Control") (defaultHeaders (chars "text/html")) = none ∧
    lookupHeader (chars "Cache-Control") (defaultHeaders (chars "video/mp4")) = none :=
  ⟨(cache_header_iff_media (chars "audio/ogg")).1 (by decide),
   (cache_header_iff_media (chars "text/html")).2 (by decide),
   (cache_header_iff_media (chars "video/mp4")).2 (by decide)⟩

theorem splitExtAux_eq : ∀ (n st ex : List Char),
    splitExtAux n = some (st, ex) → n = st ++ '.' :: ex := by
  intro n
  induction n with
  | nil =>
    intro st ex h
    simp [splitExtAux] at h
  | cons c cs ih =>
    intro st ex h
    cases hs : splitExtAux cs with
    | some pr =>
      obtain ⟨st2, ex2⟩ := pr
      rw [splitExtAux, hs] at h
      simp only [Option.some.injEq, Prod.mk.injEq] at h
      obtain ⟨h1, h2⟩ := h
      rw [← h1, ← h2]
      simpa using congrArg (fun l => c :: l) (ih st2 ex2 hs)
    | none =>
      rw [splitExtAux, hs] at h
      by_cases hc : c = '.'
      · rw [if_pos hc] at h
        simp only [Option.some.injEq, Prod.mk.injEq] at h
        obtain ⟨h1, h2⟩ := h
        rw [← h1, ← h2, hc]
        rfl
      · rw [if_neg hc] at h
        exact absurd h (by simp)

theorem fileName_suffix (p : List Char) : ∃ q, p = q ++ fileName p := by
  refine ⟨(p.reverse.dropWhile (fun c => c != '/')).reverse, ?_⟩
  rw [fileName, ← List.reverse_append]
  rw [List.takeWhile_append_dropWhile, List.reverse_reverse]

theorem ends_html_false_of_ext_htm (p : List Char)
    (h : pathExtension p = some (chars "htm")) :
    (chars ".html").isSuffixOf p = false := by
  cases hsuf : (chars ".html").isSuffixOf p with
  | false => rfl
  | true =>
    exfalso
    have h1 : (chars ".html").reverse.isPrefixOf p.reverse = true := by
      simpa [List.isSuffixOf] using hsuf
    obtain ⟨t, ht⟩ := (isPrefixOf_eq_true _ _).mp h1
    obtain ⟨st, ex, hsplit, hst, hex⟩ : ∃ st ex,
        splitExtAux (fileName p) = some (st, ex) ∧ st ≠ [] ∧ ex = chars "htm" := by
      cases hs : splitExtAux (fileName p) with
      | none =>
        simp [pathExtension, hs] at h
      | some pr =>
        obtain ⟨st, ex⟩ := pr
        by_cases hst : st = []
        · simp [pathExtension, hs, hst] at h
        · refine ⟨st, ex, rfl, hst, ?_⟩
          simpa [pathExtension, hs, hst] using h
    have hn : fileName p = st ++ '.' :: ex := splitExtAux_eq _ _ _ hsplit
    obtain ⟨q, hq⟩ := fileName_suffix p
    rw [hn, hex] at hq
    have hm : p.reverse.head? = some 'm' := by
      rw [hq]
      simp only [List.reverse_append, List.reverse_cons]
      have h3 : (chars "htm").reverse = 'm' :: 't' :: ['h'] := by decide
      rw [h3]
      rfl
    have hl : p.reverse.head? = some 'l' := by
      rw [ht]
      have h4 : (chars ".html").reverse = 'l' :: 'm' :: 't' :: 'h' :: ['.'] := by decide
      rw [h4]
      rfl
    rw [hm] at hl
    exact absurd hl (by decide)

/-- C10: a file whose extension is htm is served with the HTML content
type but never receives the payload injection, because the transformation
gate also requires the resolved path to end in the literal suffix .html;
so its served body equals the loaded content unchanged. -/
theorem htm_not_injected (polyfill p content : List Char)
    (h : pathExtension p = some (chars "htm")) :
    get_mime_type p = chars "text/html" ∧
    transformContent polyfill p (get_mime_type p) content = content := by
  have hmime : get_mime_type p = chars "text/html" := by
    simp only [get_mime_type, h]
    decide
  refine ⟨hmime, ?_⟩
  have hsuf := ends_html_false_of_ext_htm p h
  simp [transformContent, hsuf]

/-- Witness for C10 at the path a.htm. -/
theorem htm_not_injected_witness :
    get_mime_type (chars "a.htm") = chars "text/html" ∧
    transformContent (chars "P") (chars "a.htm") (get_mime_type (chars "a.htm"))
      (chars "<html></html>") = chars "<html></html>" :=
  htm_not_injected (chars "P") (chars "a.htm") (chars "<html></html>") (by decide)

/-- C4 counterexample: the hook is not invoked for a request whose asset
does not resolve.  With a hook configured that always adds an X-Test
header, a 404 response carries no such header and equals the response of
the hookless server — the hook ran zero times for this request, so it is
not invoked once per incoming request. -/
theorem hook_not_invoked_on_404_cex :
    handleRequest (chars "P")
      (some (fun _ h => add_header h (chars "X-Test") (chars "1")))
      (chars "/missing.png") (fun _ => FsNode.missing) =
    handleRequest (chars "P") none (chars "/missing.png") (fun _ => FsNode.missing) ∧
    (handleRequest (chars "P")
      (some (fun _ h => add_header h (chars "X-Test") (chars "1")))
      (chars "/missing.png") (fun _ => FsNode.missing)).status = 404 ∧
    lookupHeader (chars "X-Test")
      (handleRequest (chars "P")
        (some (fun _ h => add_header h (chars "X-Test") (chars "1")))
        (chars "/missing.png") (fun _ => FsNode.missing)).headers = none :=
  ⟨rfl, rfl, rfl⟩

/-- C4 amended: for every request whose asset resolves (the 200 path), a
configured hook is invoked exactly once, after the default headers are
assembled, with read access to the original request URL and the default
header mapping to mutate — the emitted headers are exactly one
application of the hook to the defaults; with no hook configured the
defaults are emitted unchanged.  On the 404 and 500 paths the hook is not
invoked. -/
theorem hook_applied_once_on_success (polyfill target : List Char)
    (f : Request → Headers → Headers) (tree : List Char → FsNode)
    (path content mime : List Char)
    (hp : parseUri target = some path)
    (hl : load_external_file (tree (resolve_request_path path))
      (resolve_request_path path) = some (content, mime)) :
    (handleRequest polyfill (some f) target tree).headers =
      f { url := target } (defaultHeaders mime) ∧
    (handleRequest polyfill none target tree).headers = defaultHeaders mime := by
  constructor <;> simp [handleRequest, hp, hl]

/-- Witness for C4 (amended) at a one-file tree and an X-Test hook. -/
theorem hook_applied_once_on_success_witness :
    (handleRequest (chars "P")
      (some (fun _ h => add_header h (chars "X-Test") (chars "1")))
      (chars "/a.png")
      (fun p => if p = chars "a.png" then FsNode.file (chars "B") else FsNode.missing)).headers =
      add_header (defaultHeaders (chars "image/png")) (chars "X-Test") (chars "1") ∧
    (handleRequest (chars "P") none (chars "/a.png")
      (fun p => if p = chars "a.png" then FsNode.file (chars "B") else FsNode.missing)).headers =
      defaultHeaders (chars "image/png") :=
  hook_applied_once_on_success (chars "P") (chars "/a.png")
    (fun _ h => add_header h (chars "X-Test") (chars "1"))
    (fun p => if p = chars "a.png" then FsNode.file (chars "B") else FsNode.missing)
    (chars "/a.png") (chars "B") (chars "image/png") (by decide) (by decide)

/-- C7: the listener answers 500 with the fixed plain-text error body
exactly when the request target cannot be parsed, 404 with the plain-text
Not Found body when no asset resolves, and 200 with the asset body when
one does; the loader reports the one uniform absence signal for a missing
path, a directory, and an unopenable or unreadable file, so a server over
an all-missing tree and one over an all-directory tree respond
identically. -/
theorem response_status_spec (polyfill target path : List Char)
    (hook : Option (Request → Headers → Headers)) (tree : List Char → FsNode) :
    (parseUri target = none →
      handleRequest polyfill hook target tree =
        { status := 500, body := chars "Internal Server Error - URI Parse Error",
          headers := [(chars "Content-Type", chars "text/plain")] }) ∧
    (parseUri target = some path →
      load_external_file (tree (resolve_request_path path))
        (resolve_request_path path) = none →
      handleRequest polyfill hook target tree =
        { status := 404, body := chars "Not Found",
          headers := [(chars "Content-Type", chars "text/plain")] }) ∧
    (∀ content mime, parseUri target = some path →
      load_external_file (tree (resolve_request_path path))
        (resolve_request_path path) = some (content, mime) →
      (handleRequest polyfill hook target tree).status = 200) ∧
    ((handleRequest polyfill hook target tree).status = 500 ↔ parseUri target = none) ∧
    (∀ q, load_external_file FsNode.missing q = none ∧
      load_external_file FsNode.directory q = none ∧
      load_external_file FsNode.unopenable q = none ∧
      load_external_file FsNode.unreadable q = none) ∧
    (handleRequest polyfill hook target (fun _ => FsNode.missing) =
      handleRequest polyfill hook target (fun _ => FsNode.directory)) := by
  refine ⟨?_, ?_, ?_, ?_, fun q => ⟨rfl, rfl, rfl, rfl⟩, ?_⟩
  · intro h
    simp [handleRequest, h]
  · intro h hl
    simp [handleRequest, h, hl]
  · intro content mime h hl
    simp [handleRequest, h, hl]
  · constructor
    · intro h
      cases hp : parseUri target with
      | none => rfl
      | some pp =>
        exfalso
        cases hl : load_external_file (tree (resolve_request_path pp))
            (resolve_request_path pp) with
        | none =>
          simp [handleRequest, hp, hl] at h
        | some v =>
          obtain ⟨content, mime⟩ := v
          simp [handleRequest, hp, hl] at h
    · intro h
      simp [handleRequest, h]
  · cases hp : parseUri target with
    | none => simp [handleRequest, hp]
    | some pp => simp [handleRequest, hp, load_external_file]

/-- Witness for C7 on an all-missing tree. -/
theorem response_status_spec_witness :
    handleRequest (chars "P") none (chars "/x.png") (fun _ => FsNode.missing) =
      { status := 404, body := chars "Not Found",
        headers := [(chars "Content-Type", chars "text/plain")] } ∧
    load_external_file FsNode.missing (chars "x.png") = none := by
  obtain ⟨_, h4, _, _, hu, _⟩ := response_status_spec (chars "P") (chars "/x.png")
    (chars "/x.png") none (fun _ => FsNode.missing)
  exact ⟨h4 (by decide) (by decide), (hu (chars "x.png")).1⟩
